import Mathlib

/-!
Verification of the training-orchestration core of `training/trainers/base_trainer.py`
(class `BaseTrainer`): checkpoint naming, atomic save, retention pruning, latest-checkpoint
resolution, checkpoint loading, best-validation tracking, and the fail-safe retry loop.

Filenames are modelled as lists of characters (`FName`).  All checkpoint paths produced by
the trainer live in the single project directory `{workspace_dir}/{project_path}/`, and every
path the code compares shares that directory prefix, so the model keeps only the final file
name; lexicographic comparison of the full paths coincides with lexicographic comparison of
the file names.
-/

namespace BaseTrainerModel

/-- A file name inside the project checkpoint directory. -/
abbrev FName := List Char

/-- Python string `<` : lexicographic comparison of character sequences
(a strict prefix is smaller; characters are compared by code point). -/
def strLt : FName → FName → Bool
  | _, [] => false
  | [], _ :: _ => true
  | a :: as, b :: bs => if a < b then true else if b < a then false else strLt as bs

theorem strLt_irrefl (l : FName) : strLt l l = false := by
  induction l with
  | nil => rfl
  | cons a as ih => simp [strLt, ih]

theorem strLt_asymm : ∀ {x y : FName}, strLt x y = true → strLt y x = false
  | x, [], h => by cases x <;> simp [strLt] at h
  | [], _ :: _, _ => by simp [strLt]
  | a :: as, b :: bs, h => by
    by_cases hab : a < b
    · simp [strLt, hab, asymm hab]
    · by_cases hba : b < a
      · simp [strLt, hab, hba] at h
      · have : strLt as bs = true := by simpa [strLt, hab, hba] using h
        simp [strLt, hab, hba, strLt_asymm this]

theorem strLt_eq_of_not_lt : ∀ {x y : FName}, strLt x y = false → strLt y x = false → x = y
  | [], [], _, _ => rfl
  | [], _ :: _, h, _ => by simp [strLt] at h
  | _ :: _, [], _, h' => by simp [strLt] at h'
  | a :: as, b :: bs, h, h' => by
    by_cases hab : a < b
    · simp [strLt, hab] at h
    · by_cases hba : b < a
      · simp [strLt, hba] at h'
      · have h₁ : strLt as bs = false := by simpa [strLt, hab, hba] using h
        have h₂ : strLt bs as = false := by simpa [strLt, hab, hba] using h'
        have hc : a = b := le_antisymm (not_lt.mp hba) (not_lt.mp hab)
        rw [hc, strLt_eq_of_not_lt h₁ h₂]

theorem strLt_trans : ∀ {x y z : FName},
    strLt x y = true → strLt y z = true → strLt x z = true
  | _, y, [], _, h => by cases y <;> simp [strLt] at h
  | [], _, _ :: _, _, _ => by simp [strLt]
  | _ :: _, [], _, h, _ => by simp [strLt] at h
  | a :: as, b :: bs, c :: cs, h, h' => by
    by_cases hab : a < b <;> by_cases hbc : b < c
    · simp [strLt, lt_trans hab hbc]
    · have hcb : ¬ c < b := by
        intro hcb
        exact absurd h' (by simp [strLt, hbc, hcb])
      have hbc' : b = c := le_antisymm (not_lt.mp hcb) (not_lt.mp hbc)
      simp [strLt, hbc' ▸ hab]
    · have hba : ¬ b < a := by
        intro hba
        exact absurd h (by simp [strLt, hab, hba])
      have hab' : a = b := le_antisymm (not_lt.mp hba) (not_lt.mp hab)
      simp [strLt, hab' ▸ hbc]
    · have hba : ¬ b < a := by
        intro hba
        exact absurd h (by simp [strLt, hab, hba])
      have hcb : ¬ c < b := by
        intro hcb
        exact absurd h' (by simp [strLt, hbc, hcb])
      have hab' : a = b := le_antisymm (not_lt.mp hba) (not_lt.mp hab)
      have hbc' : b = c := le_antisymm (not_lt.mp hcb) (not_lt.mp hbc)
      have h₁ : strLt as bs = true := by simpa [strLt, hab, hba] using h
      have h₂ : strLt bs cs = true := by simpa [strLt, hbc, hcb] using h'
      subst hab' hbc'
      simp [strLt, strLt_trans h₁ h₂]

theorem strLt_append_same (p : FName) (xs ys : FName) :
    strLt (p ++ xs) (p ++ ys) = strLt xs ys := by
  induction p with
  | nil => rfl
  | cons a as ih => simp [strLt, ih]

/-- The (non-strict) ordering used to model Python's `sorted` on file names. -/
def sLe (x y : FName) : Prop := strLt y x = false

instance : DecidableRel sLe := fun x y => inferInstanceAs (Decidable (strLt y x = false))

instance : IsTotal FName sLe := by
  constructor
  intro a b
  cases h : strLt b a
  · exact Or.inl h
  · exact Or.inr (strLt_asymm h)

instance : IsTrans FName sLe := by
  constructor
  intro a b c hab hbc
  unfold sLe at *
  cases h : strLt c a
  · rfl
  · cases hab2 : strLt a b
    · have hq : a = b := strLt_eq_of_not_lt hab2 hab
      rw [hq] at h
      rw [h] at hbc
      simp at hbc
    · have hq : strLt c b = true := strLt_trans h hab2
      rw [hq] at hbc
      simp at hbc

/-- Decimal digit characters of `n`, fuel-driven (any `fuel > n` gives `str(n)`). -/
def decChars : Nat → Nat → List Char
  | 0, _ => []
  | fuel + 1, n =>
    if n < 10 then [Nat.digitChar n]
    else decChars fuel (n / 10) ++ [Nat.digitChar (n % 10)]

/-- The decimal representation of `n`, i.e. the characters of Python's `str(n)`. -/
def toDecimal (n : Nat) : List Char := decChars (n + 1) n

/-- Python `'{:04d}'.format(n)`: the decimal digits of `n`, left-padded with `'0'`
to a minimum width of 4. -/
def pad4 (n : Nat) : FName :=
  List.replicate (4 - (toDecimal n).length) '0' ++ toDecimal n

/-- The four digit characters of a number below 10000, most significant first. -/
def dig4 (n : Nat) : FName :=
  [Nat.digitChar (n / 1000), Nat.digitChar (n / 100 % 10),
   Nat.digitChar (n / 10 % 10), Nat.digitChar (n % 10)]

/-- File name of a numbered checkpoint: `'{}_ep{:04d}.pth.tar'.format(net_type, epoch)`. -/
def numberedName (net : FName) (ep : Nat) : FName :=
  net ++ "_ep".data ++ pad4 ep ++ ".pth.tar".data

/-- Temporary file written before renaming a numbered checkpoint:
`'{}_ep{:04d}.tmp'.format(net_type, epoch)`. -/
def numberedTmp (net : FName) (ep : Nat) : FName :=
  net ++ "_ep".data ++ pad4 ep ++ ".tmp".data

/-- File name of a named checkpoint: `'{}_{}.pth.tar'.format(net_type, name)`. -/
def namedName (net nm : FName) : FName :=
  net ++ "_".data ++ nm ++ ".pth.tar".data

/-- Temporary file written before renaming a named checkpoint:
`'{}_{}.tmp'.format(net_type, name)`. -/
def namedTmp (net nm : FName) : FName :=
  net ++ "_".data ++ nm ++ ".tmp".data

/-- Python `p in s` on strings: `p` occurs in `s` as a contiguous substring. -/
def hasSub (s p : FName) : Bool :=
  if p.isPrefixOf s then true
  else
    match s with
    | [] => false
    | _ :: t => hasSub t p

/-- The checkpoint dict built by `save_checkpoint` (the `state` dict).  Opaque blobs that the
trainer core never inspects (weights, optimizer state, scheduler state, the stats mapping,
`net.info`, `net.constructor`) are modelled as `Nat` identifiers; `optimizer = 0` models a
falsy (empty) optimizer state dict.  Validation scores are modelled as rationals with `⊤`
for `float("Inf")`: the code only ever compares them. -/
structure CkptRecord where
  epoch : Nat
  actorType : FName
  netType : FName
  stateDict : Nat
  netInfo : Option Nat
  constructorDesc : Option Nat
  optimizer : Nat
  lrSchedulerState : Nat
  stats : Nat
  bestVal : WithTop ℚ
  epochOfBestVal : Nat
deriving DecidableEq

/-- Contents of a file in the checkpoint directory. -/
inductive Content where
  | partialC : Content
  | fullC : CkptRecord → Content
deriving DecidableEq

/-- A directory entry. -/
structure Entry where
  name : FName
  content : Content
deriving DecidableEq

/-- The project checkpoint directory `{workspace_dir}/{project_path}/`, as a listing. -/
abbrev FS := List Entry

def lookupFS (fs : FS) (n : FName) : Option Content :=
  (fs.find? (fun en => en.name == n)).map (·.content)

def removeFile (fs : FS) (n : FName) : FS :=
  fs.filter (fun en => !(en.name == n))

/-- Writing a file (`torch.save` target or `os.rename` destination overwrites). -/
def setFile (fs : FS) (n : FName) (c : Content) : FS :=
  removeFile fs n ++ [⟨n, c⟩]

/-- `os.rename(src, dst)`: atomic; overwrites `dst`. -/
def renameFile (fs : FS) (src dst : FName) : FS :=
  match lookupFS fs src with
  | none => fs
  | some c => setFile (removeFile fs src) dst c

/-- The glob pattern `'{}_ep*.pth.tar'.format(net_type)`:
names starting with `{net}_ep`, ending with `.pth.tar`, long enough that
prefix and suffix do not overlap. -/
def globNumbered (net : FName) (f : FName) : Bool :=
  (net ++ "_ep".data).isPrefixOf f && ".pth.tar".data.isSuffixOf f &&
    decide ((net ++ "_ep".data).length + ".pth.tar".data.length ≤ f.length)

/-- The glob pattern `'{}/*_ep*.pth.tar'.format(checkpoint)` used for an explicit
directory: any name containing `_ep` and ending with `.pth.tar`. -/
def globAnyNumbered (f : FName) : Bool :=
  hasSub f "_ep".data && ".pth.tar".data.isSuffixOf f &&
    decide ("_ep".data.length + ".pth.tar".data.length ≤ f.length)

/-- Python `sorted` on a list of file names. -/
def sortedNames (l : List FName) : List FName := List.insertionSort sLe l

/-- The names in `fs` matched by a glob pattern, in directory order. -/
def matchingNames (fs : FS) (pat : FName → Bool) : List FName :=
  (fs.filter (fun en => pat en.name)).map (·.name)

/-- Resolution of the `Latest` selector: `sorted(glob('{}/{}/{}_ep*.pth.tar'))[-1]`,
or `none` when no checkpoint matches. -/
def resolveLatest (fs : FS) (net : FName) : Option FName :=
  (sortedNames (matchingNames fs (globNumbered net))).getLast?

/-- Python `l[:-k]`: all but the last `k` elements (everything removed when `k = 0`
would be wrong — Python gives `[]` for `l[:-0]`). -/
def pySliceToNeg (l : List FName) (k : Nat) : List FName :=
  if k = 0 then [] else l.take (l.length - k)

/-- `delete_old_checkpoints`: the files removed.
`ckpts = sorted(glob(...)); ckpts_to_remove = sorted(ckpts)[:-keep_last_checkpoints]`. -/
def checkpointsToRemove (fs : FS) (net : FName) (keep : Nat) : List FName :=
  pySliceToNeg (sortedNames (sortedNames (matchingNames fs (globNumbered net)))) keep

/-- `delete_old_checkpoints`: `os.remove` of every name in `ckpts_to_remove`. -/
def deleteOldCheckpoints (fs : FS) (net : FName) (keep : Nat) : FS :=
  fs.filter (fun en => !((checkpointsToRemove fs net keep).contains en.name))

/-- The directory state after `save_checkpoint` body: write the `.tmp` file, then
`os.rename` it onto the final `.pth.tar` name. -/
def saveCheckpointFS (fs : FS) (net : FName) (nm : Option FName) (ep : Nat)
    (r : CkptRecord) : FS :=
  let t := match nm with | some s => namedTmp net s | none => numberedTmp net ep
  let f := match nm with | some s => namedName net s | none => numberedName net ep
  renameFile (setFile fs t (Content.fullC r)) t f

/-- Every directory state observable while `save_checkpoint` runs, in order: before the
save, while `torch.save` is writing the `.tmp` file (partial content), after `torch.save`
completed, and after the `os.rename`.  A crash during the save leaves the directory in one
of these states. -/
def saveSteps (fs : FS) (net : FName) (nm : Option FName) (ep : Nat)
    (r : CkptRecord) : List FS :=
  let t := match nm with | some s => namedTmp net s | none => numberedTmp net ep
  [fs, setFile fs t Content.partialC, setFile fs t (Content.fullC r),
   saveCheckpointFS fs net nm ep r]

/-- State held by the learning-rate scheduler collaborator. -/
structure SchedState where
  lastEpoch : Nat
  stateBlob : Nat
deriving DecidableEq

/-- The trainer attributes touched by checkpointing (`__init__` lines 32–44).
`stats`, weights, optimizer state and `net.info` are opaque blobs (`Nat`). -/
structure TrainerState where
  epoch : Nat
  justStarted : Bool
  stats : Nat
  bestVal : WithTop ℚ
  epochOfBestVal : Nat
  currentBestVal : Option ℚ
  netWeights : Nat
  netInfo : Option Nat
  netConstructor : Option Nat
  optState : Nat
  lrScheduler : Option SchedState
deriving DecidableEq

/-- The failures the trainer's checkpoint paths can raise (spec error taxonomy; in the code
they surface as `AttributeError`, `Exception('No checkpoint found')`, the failed net-type
`assert`, a `torch.load` I/O error and `TypeError` respectively). -/
inductive PyErr where
  | attributeError
  | noCheckpointFound
  | incompatibleCheckpoint
  | ioError
  | typeError
deriving DecidableEq

/-- Attribute access on `self.lr_scheduler`: raises `AttributeError` on `None`. -/
def derefSched (s : Option SchedState) : Except PyErr SchedState :=
  match s with
  | none => .error .attributeError
  | some st => .ok st

/-- The `state` dict built by `save_checkpoint` (lines 138–150).  Note that
`self.lr_scheduler.state_dict()` is evaluated unconditionally. -/
def buildCheckpointState (st : TrainerState) (actorT net : FName) :
    Except PyErr CkptRecord := do
  let sched ← derefSched st.lrScheduler
  pure { epoch := st.epoch, actorType := actorT, netType := net,
         stateDict := st.netWeights, netInfo := st.netInfo,
         constructorDesc := st.netConstructor, optimizer := st.optState,
         lrSchedulerState := sched.stateBlob, stats := st.stats,
         bestVal := st.bestVal, epochOfBestVal := st.epochOfBestVal }

/-- `save_checkpoint(name)`: build the state dict, write the `.tmp` file, rename. -/
def saveCheckpoint (st : TrainerState) (fs : FS) (net actorT : FName)
    (nm : Option FName) : Except PyErr FS := do
  let r ← buildCheckpointState st actorT net
  pure (saveCheckpointFS fs net nm st.epoch r)

/-- The keys of the serialized checkpoint dict, in insertion order, plus `settings`
(present in the default ignore list though never a key of this dict). -/
inductive Field where
  | epoch | actorType | netType | stateDict | netInfo | constructorF | optimizer
  | lrScheduler | stats | bestVal | epochOfBestVal | settings
deriving DecidableEq

/-- `checkpoint_dict.keys()` for a checkpoint written by `save_checkpoint`. -/
def recKeys : List Field :=
  [.epoch, .actorType, .netType, .stateDict, .netInfo, .constructorF, .optimizer,
   .lrScheduler, .stats, .bestVal, .epochOfBestVal]

/-- Fields unconditionally appended to `ignore_fields` by `load_checkpoint`
("Never load the scheduler. ..."). -/
def ignoreAlways : List Field :=
  [.lrScheduler, .constructorF, .netType, .actorType, .netInfo]

/-- One iteration of the field-loading loop of `load_checkpoint` (lines 238–254):
`state_dict` goes to the network, a truthy `optimizer` to the optimizer, every other
non-ignored key is `setattr` on the trainer.  Keys that are always ignored
(see `ignoreAlways`) never reach this function; they are mapped to the identity. -/
def applyField (r : CkptRecord) (st : TrainerState) (f : Field) : TrainerState :=
  match f with
  | .epoch => { st with epoch := r.epoch }
  | .stateDict => { st with netWeights := r.stateDict }
  | .optimizer => if r.optimizer ≠ 0 then { st with optState := r.optimizer } else st
  | .stats => { st with stats := r.stats }
  | .bestVal => { st with bestVal := r.bestVal }
  | .epochOfBestVal => { st with epochOfBestVal := r.epochOfBestVal }
  | _ => st

/-- The three call shapes of `load_checkpoint`, plus an explicit directory path
(modelled by the directory's listing). -/
inductive Selector where
  | latest
  | byEpoch (n : Nat)
  | byFilePath (p : FName)
  | byDirPath (listing : FS)

/-- Checkpoint-path resolution (lines 190–218 of `load_checkpoint`): yields the resolved
path, the directory holding it and the `resume` flag; `ok none` is the early `return` when
`Latest` finds nothing; an explicit directory with no matching file raises
`Exception('No checkpoint found')`. -/
def resolveSel (fs : FS) (net : FName) (sel : Selector) :
    Except PyErr (Option (FName × FS × Bool)) :=
  match sel with
  | .latest =>
    match resolveLatest fs net with
    | some p => .ok (some (p, fs, true))
    | none => .ok none
  | .byEpoch n => .ok (some (numberedName net n, fs, true))
  | .byFilePath p => .ok (some (p, fs, false))
  | .byDirPath listing =>
    match (sortedNames (matchingNames listing globAnyNumbered)).getLast? with
    | some p => .ok (some (p, listing, true))
    | none => .error .noCheckpointFound

/-- Lines 238–272 of `load_checkpoint`: the field-copy loop, the non-resume reset, the
`net.info` update, and the final `self.lr_scheduler.last_epoch = self.epoch`, which
dereferences `self.lr_scheduler` whenever `'epoch' in fields`. -/
def applyLoadedFields (st : TrainerState) (c : CkptRecord) (resume : Bool)
    (fields ignore : List Field) : Except PyErr TrainerState :=
  let st₁ := (fields.filter (fun k => !(ignore.contains k))).foldl (applyField c) st
  let st₂ := if resume then st₁ else
    { st₁ with epoch := 0, stats := 0, bestVal := ⊤, epochOfBestVal := 0 }
  let st₃ := match c.netInfo with
    | some i => { st₂ with netInfo := some i }
    | none => st₂
  if Field.epoch ∈ fields then
    match st₃.lrScheduler with
    | none => .error .attributeError
    | some sched => .ok { st₃ with lrScheduler := some { sched with lastEpoch := st₃.epoch } }
  else .ok st₃

/-- `load_checkpoint(checkpoint, fields, ignore_fields, additional_ignore_fields)`.
Returns the updated trainer state and `true` (the function's `return True`), or the
unchanged state and `false` for the early `return` when `Latest` finds nothing.  The
net-type compatibility `assert` is
`net_type == checkpoint_net_type or checkpoint_net_type in net_type`. -/
def loadCheckpoint (st : TrainerState) (fs : FS) (net : FName) (sel : Selector)
    (fields? ignore? addIgnore? : Option (List Field)) :
    Except PyErr (TrainerState × Bool) :=
  match resolveSel fs net sel with
  | .error e => .error e
  | .ok none => .ok (st, false)
  | .ok (some (path, src, resume)) =>
    match lookupFS src path with
    | some (Content.fullC c) =>
      if (c.netType == net) || hasSub net c.netType then
        match applyLoadedFields st c resume (fields?.getD recKeys)
            ((ignore?.getD [Field.settings]) ++ ignoreAlways ++ addIgnore?.getD []) with
        | .error e => .error e
        | .ok st' => .ok (st', true)
      else .error .incompatibleCheckpoint
    | some Content.partialC => .error .ioError
    | none => .error .ioError

/-- Lines 87–94 of `train`: the best-model decision made once per epoch.  Returns the
updated trainer state and whether a `'model_best'` checkpoint save was triggered. -/
def considerBest (st : TrainerState) : TrainerState × Bool :=
  match st.currentBestVal with
  | none => (st, false)
  | some v =>
    if (v : WithTop ℚ) < st.bestVal then
      ({ st with bestVal := (v : WithTop ℚ), epochOfBestVal := st.epoch }, true)
    else (st, false)

/-- The evolution of `(best_val, epoch_of_best_val)` across a run: at each epoch `e`
(numbered from `e₀`), the actor's pass leaves some value in `self.current_best_val`
(given by the `scores` list, `none` when no validation score is available), and the
update of lines 87–92 is applied. -/
def runVal : WithTop ℚ × Nat → Nat → List (Option ℚ) → WithTop ℚ × Nat
  | s, _, [] => s
  | (bv, eb), e, none :: rest => runVal (bv, eb) (e + 1) rest
  | (bv, eb), e, some v :: rest =>
    if (v : WithTop ℚ) < bv then runVal ((v : WithTop ℚ), e) (e + 1) rest
    else runVal (bv, eb) (e + 1) rest

/-- The `best_val` component of one epoch's update. -/
def bvStep (bv : WithTop ℚ) (o : Option ℚ) : WithTop ℚ :=
  match o with
  | none => bv
  | some v => if (v : WithTop ℚ) < bv then (v : WithTop ℚ) else bv

/-- `best_val` after a run over `l` starting from `bv`. -/
def bvFold (bv : WithTop ℚ) (l : List (Option ℚ)) : WithTop ℚ := l.foldl bvStep bv

/-- `best_val` after the first `k` epochs of a full run (initial value `float("Inf")`). -/
def bestValAfter (scores : List (Option ℚ)) (k : Nat) : WithTop ℚ :=
  bvFold ⊤ (scores.take k)

/-- The epochs (1-based) at which `best_val` strictly decreases during a full run. -/
def decreaseEpochs (scores : List (Option ℚ)) : List Nat :=
  (List.range scores.length).filterMap fun k =>
    if bestValAfter scores (k + 1) < bestValAfter scores k then some (k + 1) else none

/-- Events printed by the `train` retry loop. -/
inductive LogEvent where
  | crashedAtEpoch (e : Int)
  | fullTrace (err : Nat)
  | restarting
  | finishedTraining
deriving DecidableEq

/-- The controller state visible to `train`'s retry loop.  `epoch` is an integer because
the fail-safe handler decrements it unconditionally (it can go below 0). -/
structure CtrlState where
  epoch : Int
  loadLatest : Bool
  log : List LogEvent
deriving DecidableEq

/-- The `except:` handler of `train` with `fail_safe` true (lines 105–111): log the crash
and the full traceback, decrement the epoch counter, force `load_latest = True`. -/
def failHandler (st : CtrlState) (err : Nat) : CtrlState :=
  { st with
    epoch := st.epoch - 1,
    loadLatest := true,
    log := st.log ++ [LogEvent.crashedAtEpoch st.epoch, LogEvent.fullTrace err,
      LogEvent.restarting] }

/-- `for i in range(num_tries): try: <attempt body> except: ...` — the attempt body
(optional `load_checkpoint` plus the epoch loop; `train_epoch` is abstract in
`BaseTrainer`) is an oracle `body` mapping the attempt index and entry state to the state
when the `try` block finished, plus the raised failure if it raised one (with `self.epoch`
equal to the epoch being executed at the failure point). -/
def runTries (failSafe : Bool) (body : Nat → CtrlState → CtrlState × Option Nat) :
    Nat → Nat → CtrlState → CtrlState × Option Nat
  | _, 0, st => ({ st with log := st.log ++ [LogEvent.finishedTraining] }, none)
  | i, n + 1, st =>
    match body i st with
    | (st', none) => runTries failSafe body (i + 1) n st'
    | (st', some e) =>
      if failSafe then runTries failSafe body (i + 1) n (failHandler st' e)
      else (st', some e)

/-- `num_tries = 2` in `train`. -/
def numTries : Nat := 2

/-- `BaseTrainer.train`'s retry loop: run the attempt body up to `numTries` times; a raise
with `fail_safe` false propagates (second component `some err`); otherwise the run ends
normally printing `'Finished training!'` (second component `none`). -/
def train (failSafe : Bool) (body : Nat → CtrlState → CtrlState × Option Nat)
    (st : CtrlState) : CtrlState × Option Nat :=
  runTries failSafe body 0 numTries st

instance {ε α : Type} [DecidableEq ε] [DecidableEq α] : DecidableEq (Except ε α) := fun a b =>
  match a, b with
  | .ok x, .ok y =>
    if h : x = y then isTrue (by rw [h]) else isFalse (fun hh => h (Except.ok.inj hh))
  | .error x, .error y =>
    if h : x = y then isTrue (by rw [h]) else isFalse (fun hh => h (Except.error.inj hh))
  | .ok _, .error _ => isFalse (fun hh => Except.noConfusion hh)
  | .error _, .ok _ => isFalse (fun hh => Except.noConfusion hh)

/-- No file ever written under a final checkpoint name (`…​.pth.tar`) has partial content. -/
def goodFS (fs : FS) : Prop :=
  ∀ en ∈ fs, ".pth.tar".data.isSuffixOf en.name = true → en.content ≠ Content.partialC

/-- The epochs at which the lines 87–92 update fires, computed along the run
(recursive form used to relate `runVal` to `decreaseEpochs`). -/
def decList (bv : WithTop ℚ) (e : Nat) : List (Option ℚ) → List Nat
  | [] => []
  | none :: rest => decList bv (e + 1) rest
  | some v :: rest =>
    if (v : WithTop ℚ) < bv then e :: decList (v : WithTop ℚ) (e + 1) rest
    else decList bv (e + 1) rest

/-! ## Auxiliary lemmas about decimal rendering and name ordering -/

theorem decChars_congr : ∀ (f g n : Nat), n < f → n < g → decChars f n = decChars g n
  | 0, _, _, hf, _ => absurd hf (by omega)
  | _ + 1, 0, _, _, hg => absurd hg (by omega)
  | f + 1, g + 1, n, hf, hg => by
    by_cases h : n < 10
    · simp [decChars, h]
    · have h10 : n / 10 < n := Nat.div_lt_self (by omega) (by omega)
      simp only [decChars, h, if_false]
      rw [decChars_congr f g (n / 10) (by omega) (by omega)]

theorem toDecimal_lt10 {n : Nat} (h : n < 10) : toDecimal n = [Nat.digitChar n] := by
  simp [toDecimal, decChars, h]

theorem toDecimal_ge10 {n : Nat} (h : 10 ≤ n) :
    toDecimal n = toDecimal (n / 10) ++ [Nat.digitChar (n % 10)] := by
  have h10 : n / 10 < n := Nat.div_lt_self (by omega) (by omega)
  show decChars (n + 1) n = _
  rw [decChars, if_neg (by omega), decChars_congr n (n / 10 + 1) (n / 10) h10 (by omega)]
  rfl

theorem toDecimal_two {n : Nat} (h1 : 10 ≤ n) (h2 : n < 100) :
    toDecimal n = [Nat.digitChar (n / 10), Nat.digitChar (n % 10)] := by
  rw [toDecimal_ge10 h1, toDecimal_lt10 (by omega)]
  rfl

theorem toDecimal_three {n : Nat} (h1 : 100 ≤ n) (h2 : n < 1000) :
    toDecimal n = [Nat.digitChar (n / 100), Nat.digitChar (n / 10 % 10),
      Nat.digitChar (n % 10)] := by
  rw [toDecimal_ge10 (by omega), toDecimal_two (by omega) (by omega)]
  have e1 : n / 10 / 10 = n / 100 := by omega
  have e2 : n / 10 % 10 = n / 10 % 10 := rfl
  rw [e1]
  rfl

theorem toDecimal_four {n : Nat} (h1 : 1000 ≤ n) (h2 : n < 10000) :
    toDecimal n = dig4 n := by
  rw [toDecimal_ge10 (by omega), toDecimal_three (by omega) (by omega)]
  have e1 : n / 10 / 100 = n / 1000 := by omega
  have e2 : n / 10 / 10 % 10 = n / 100 % 10 := by omega
  rw [e1, e2]
  rfl

theorem pad4_eq_dig4 {n : Nat} (h : n < 10000) : pad4 n = dig4 n := by
  have hd0 : Nat.digitChar 0 = '0' := rfl
  by_cases c1 : n < 10
  · have e1 : n / 1000 = 0 := by omega
    have e2 : n / 100 % 10 = 0 := by omega
    have e3 : n / 10 % 10 = 0 := by omega
    have e4 : n % 10 = n := by omega
    simp [pad4, toDecimal_lt10 c1, dig4, e1, e2, e3, e4, hd0, List.replicate]
  · by_cases c2 : n < 100
    · have e1 : n / 1000 = 0 := by omega
      have e2 : n / 100 % 10 = 0 := by omega
      have e3 : n / 10 % 10 = n / 10 := by omega
      simp [pad4, toDecimal_two (by omega) c2, dig4, e1, e2, e3, hd0, List.replicate]
    · by_cases c3 : n < 1000
      · have e1 : n / 1000 = 0 := by omega
        have e2 : n / 100 % 10 = n / 100 := by omega
        simp [pad4, toDecimal_three (by omega) c3, dig4, e1, e2, hd0, List.replicate]
      · rw [pad4, toDecimal_four (by omega) h]
        simp [dig4]

theorem digitChar_lt_digitChar {a b : Nat} (ha : a < 10) (hb : b < 10) :
    (Nat.digitChar a < Nat.digitChar b) ↔ a < b := by
  interval_cases a <;> interval_cases b <;> decide

theorem strLt_digit_cons {x y : Nat} (hx : x < 10) (hy : y < 10) (xs ys : FName) :
    strLt (Nat.digitChar x :: xs) (Nat.digitChar y :: ys) =
      if x < y then true else if y < x then false else strLt xs ys := by
  by_cases h1 : x < y
  · simp [strLt, (digitChar_lt_digitChar hx hy).2 h1, h1]
  · by_cases h2 : y < x
    · have hxy : ¬ (Nat.digitChar x < Nat.digitChar y) := fun hlt =>
        h1 ((digitChar_lt_digitChar hx hy).1 hlt)
      have hyx : Nat.digitChar y < Nat.digitChar x := (digitChar_lt_digitChar hy hx).2 h2
      simp [strLt, hxy, hyx, h1, h2]
    · have hq : x = y := by omega
      subst hq
      simp [strLt, h1]

theorem strLt_pad4 {a b : Nat} (ha : a < 10000) (hb : b < 10000) (t : FName) :
    strLt (pad4 a ++ t) (pad4 b ++ t) = decide (a < b) := by
  have d1a : a / 1000 < 10 := by omega
  have d2a : a / 100 % 10 < 10 := by omega
  have d3a : a / 10 % 10 < 10 := by omega
  have d4a : a % 10 < 10 := by omega
  have d1b : b / 1000 < 10 := by omega
  have d2b : b / 100 % 10 < 10 := by omega
  have d3b : b / 10 % 10 < 10 := by omega
  have d4b : b % 10 < 10 := by omega
  rw [pad4_eq_dig4 ha, pad4_eq_dig4 hb]
  simp only [dig4, List.cons_append, List.nil_append]
  rw [strLt_digit_cons d1a d1b, strLt_digit_cons d2a d2b, strLt_digit_cons d3a d3b,
    strLt_digit_cons d4a d4b, strLt_irrefl]
  split_ifs <;>
    first
      | (rw [eq_comm, decide_eq_true_eq]; omega)
      | (rw [eq_comm, decide_eq_false_iff_not]; omega)

theorem strLt_numberedName {a b : Nat} (ha : a < 10000) (hb : b < 10000) (net : FName) :
    strLt (numberedName net a) (numberedName net b) = decide (a < b) := by
  have e : ∀ ep : Nat,
      numberedName net ep = (net ++ "_ep".data) ++ (pad4 ep ++ ".pth.tar".data) := by
    intro ep
    simp [numberedName, List.append_assoc]
  rw [e, e, strLt_append_same, strLt_pad4 ha hb]

theorem numberedName_inj {a b : Nat} (ha : a < 10000) (hb : b < 10000) {net : FName}
    (h : numberedName net a = numberedName net b) : a = b := by
  have h1 := strLt_numberedName ha hb net
  have h2 := strLt_numberedName hb ha net
  rw [h, strLt_irrefl] at h1
  rw [h, strLt_irrefl] at h2
  have n1 : ¬ a < b := by simpa using h1.symm
  have n2 : ¬ b < a := by simpa using h2.symm
  omega

/-! ## Claim C1: fail-safe retry loop -/

/-- C1 (counterexample): with `fail_safe` true and a body that fails on both attempts,
`train` terminates NORMALLY (no failure re-raised, second component `none`), contradicting
the claim that exhausting the retry budget re-raises the final unrecoverable failure so
that the process exits non-zero — the code's `except` clause swallows the second failure
and falls through to `print('Finished training!')`. -/
theorem claim_C1_counterexample :
    train true (fun _ s => (s, some 7)) ⟨0, false, []⟩ =
      (⟨-2, true,
        [LogEvent.crashedAtEpoch 0, LogEvent.fullTrace 7, LogEvent.restarting,
         LogEvent.crashedAtEpoch (-1), LogEvent.fullTrace 7, LogEvent.restarting,
         LogEvent.finishedTraining]⟩, none) := by
  decide

/-- C1 (amended): with `fail_safe` true, a failure during an attempt decrements the epoch
counter by one, logs the failure with its full diagnostic trace, forces
resume-from-checkpoint (`load_latest = True`), and retries the whole run, with a budget of
2 attempts total; but exhausting the retry budget terminates the run NORMALLY after logging
the last failure — the final failure is swallowed, not re-raised.  With `fail_safe` false
the first failure propagates to the caller. -/
theorem claim_C1_amended (body : Nat → CtrlState → CtrlState × Option Nat)
    (st st' : CtrlState) (e : Nat) :
    (body 0 st = (st', some e) → train false body st = (st', some e)) ∧
    (body 0 st = (st', some e) →
      train true body st = runTries true body 1 1 (failHandler st' e) ∧
      (failHandler st' e).epoch = st'.epoch - 1 ∧
      (failHandler st' e).loadLatest = true ∧
      (failHandler st' e).log = st'.log ++ [LogEvent.crashedAtEpoch st'.epoch,
        LogEvent.fullTrace e, LogEvent.restarting]) ∧
    (∀ st₂ e₂, body 0 st = (st', some e) →
      body 1 (failHandler st' e) = (st₂, some e₂) →
      train true body st =
        ({ failHandler st₂ e₂ with
            log := (failHandler st₂ e₂).log ++ [LogEvent.finishedTraining] }, none)) := by
  refine ⟨fun h => ?_, fun h => ?_, fun st₂ e₂ h h₂ => ?_⟩
  · show runTries false body 0 2 st = (st', some e)
    rw [runTries, h]
    rfl
  · refine ⟨?_, rfl, rfl, rfl⟩
    show runTries true body 0 2 st = _
    rw [runTries, h]
    rfl
  · show runTries true body 0 2 st = _
    rw [runTries, h]
    show runTries true body 1 1 (failHandler st' e) = _
    rw [runTries, h₂]
    rfl

/-- C1 (witness): the amended theorem applied at a concrete failing body. -/
theorem claim_C1_witness :
    train true (fun _ s => (s, some 5)) ⟨3, false, []⟩ =
      ({ failHandler (failHandler ⟨3, false, []⟩ 5) 5 with
          log := (failHandler (failHandler ⟨3, false, []⟩ 5) 5).log ++
            [LogEvent.finishedTraining] }, none) ∧
    train false (fun _ s => (s, some 5)) ⟨3, false, []⟩ = (⟨3, false, []⟩, some 5) := by
  have h := claim_C1_amended (fun _ s => (s, some 5)) ⟨3, false, []⟩ ⟨3, false, []⟩ 5
  exact ⟨h.2.2 (failHandler ⟨3, false, []⟩ 5) 5 rfl rfl, h.1 rfl⟩

/-! ## Claim C4: best-model decision -/

/-- C4: the best-model decision promotes exactly when the candidate validation score is
strictly below `best_val`; on promotion `best_val` and `epoch_of_best_val` are updated and
a "best" checkpoint save is triggered (second component `true`); otherwise the state is
unchanged and no "best" save happens; when no validation score is available
(`current_best_val is None`) the decision leaves everything unchanged. -/
theorem claim_C4 (st : TrainerState) :
    (st.currentBestVal = none → considerBest st = (st, false)) ∧
    (∀ v : ℚ, st.currentBestVal = some v →
      (((v : WithTop ℚ) < st.bestVal →
        considerBest st =
          ({ st with bestVal := (v : WithTop ℚ), epochOfBestVal := st.epoch }, true)) ∧
       (¬ (v : WithTop ℚ) < st.bestVal → considerBest st = (st, false)))) := by
  refine ⟨fun h => ?_, fun v hv => ⟨fun hlt => ?_, fun hge => ?_⟩⟩
  · simp [considerBest, h]
  · simp [considerBest, hv, hlt]
  · simp [considerBest, hv, hge]

/-- C4 (witness): the decision applied at a concrete improving score and at a concrete
epoch with no validation score. -/
theorem claim_C4_witness :
    considerBest ⟨3, false, 0, ⊤, 0, some 1, 0, none, none, 0, some ⟨0, 0⟩⟩ =
      (⟨3, false, 0, ((1 : ℚ) : WithTop ℚ), 3, some 1, 0, none, none, 0, some ⟨0, 0⟩⟩,
        true) ∧
    considerBest ⟨3, false, 0, ⊤, 0, none, 0, none, none, 0, some ⟨0, 0⟩⟩ =
      (⟨3, false, 0, ⊤, 0, none, 0, none, none, 0, some ⟨0, 0⟩⟩, false) := by
  constructor
  · exact ((claim_C4 _).2 1 rfl).1 (WithTop.coe_lt_top 1)
  · exact (claim_C4 _).1 rfl

/-! ## Claim C10: unconditional lr_scheduler dereference -/

theorem applyField_lrScheduler (r : CkptRecord) (st : TrainerState) (f : Field) :
    (applyField r st f).lrScheduler = st.lrScheduler := by
  cases f
  all_goals try rfl
  show (if r.optimizer ≠ 0 then { st with optState := r.optimizer } else st).lrScheduler =
    st.lrScheduler
  split <;> rfl

theorem foldl_applyField_lrScheduler (r : CkptRecord) (l : List Field) (st : TrainerState) :
    (l.foldl (applyField r) st).lrScheduler = st.lrScheduler := by
  induction l generalizing st with
  | nil => rfl
  | cons f t ih => rw [List.foldl_cons, ih, applyField_lrScheduler]

theorem applyLoadedFields_sched_none (st : TrainerState) (c : CkptRecord) (resume : Bool)
    (fields ignore : List Field) (hs : st.lrScheduler = none)
    (hmem : Field.epoch ∈ fields) :
    applyLoadedFields st c resume fields ignore = .error .attributeError := by
  simp only [applyLoadedFields, if_pos hmem]
  cases hni : c.netInfo <;> cases hr : resume <;>
    simp [hni, hr, foldl_applyField_lrScheduler, hs]

/-- C10: the learning-rate scheduler is optional (`lr_scheduler=None` by default, and the
epoch loop guards `lr_scheduler.step()` against `None`), yet `save_checkpoint` evaluates
`self.lr_scheduler.state_dict()` unconditionally and `load_checkpoint` executes
`self.lr_scheduler.last_epoch = self.epoch` whenever `'epoch' in fields`.  Hence with
`lr_scheduler = None` every checkpoint save fails (`AttributeError`), and every load whose
`fields` include `'epoch'` fails: it can never return successfully with a loaded
checkpoint (`return True`). -/
theorem claim_C10 (st : TrainerState) (fs : FS) (net actorT : FName) (nm : Option FName)
    (sel : Selector) (fields? ignore? addIgnore? : Option (List Field))
    (hs : st.lrScheduler = none) :
    saveCheckpoint st fs net actorT nm = .error .attributeError ∧
    (Field.epoch ∈ fields?.getD recKeys →
      ∀ st' : TrainerState,
        loadCheckpoint st fs net sel fields? ignore? addIgnore? ≠ .ok (st', true)) := by
  constructor
  · simp [saveCheckpoint, buildCheckpointState, derefSched, hs, Except.bind]
  · intro hmem st' hok
    unfold loadCheckpoint at hok
    split at hok
    · exact absurd hok (by simp)
    · simp at hok
    · rename_i path src resume heq
      split at hok
      · rename_i c heqc
        split at hok
        · rw [applyLoadedFields_sched_none st c _ _ _ hs hmem] at hok
          exact absurd hok (by simp)
        · exact absurd hok (by simp)
      · exact absurd hok (by simp)
      · exact absurd hok (by simp)

/-- C10 (witness): the theorem applied at a concrete trainer with no scheduler. -/
theorem claim_C10_witness :
    saveCheckpoint ⟨2, false, 0, ⊤, 0, none, 5, none, none, 7, none⟩ [] "Net".data
        "Actor".data none = .error .attributeError ∧
    loadCheckpoint ⟨2, false, 0, ⊤, 0, none, 5, none, none, 7, none⟩ [] "Net".data
        (.byEpoch 2) none none none ≠
      .ok (⟨2, false, 0, ⊤, 0, none, 5, none, none, 7, none⟩, true) := by
  have h := claim_C10 ⟨2, false, 0, ⊤, 0, none, 5, none, none, 7, none⟩ [] "Net".data
    "Actor".data none (.byEpoch 2) none none none rfl
  exact ⟨h.1, h.2 (by decide) _⟩

/-! ## Claim C9: Latest vs explicit-directory resolution of an empty store -/

/-- C9: when no matching checkpoint exists, `Latest` resolution is non-fatal — the load
returns without effect (`return` with the state unchanged, second component `false`, so
the caller proceeds from its current epoch, 0 at start) — whereas an explicit directory
selector containing no matching checkpoint fails with `NoCheckpointFound`
(`raise Exception('No checkpoint found')`). -/
theorem claim_C9 (st : TrainerState) (fs : FS) (net : FName)
    (fields? ignore? addIgnore? : Option (List Field)) :
    (matchingNames fs (globNumbered net) = [] →
      loadCheckpoint st fs net .latest fields? ignore? addIgnore? = .ok (st, false)) ∧
    (∀ listing : FS, matchingNames listing globAnyNumbered = [] →
      loadCheckpoint st fs net (.byDirPath listing) fields? ignore? addIgnore? =
        .error .noCheckpointFound) := by
  constructor
  · intro h
    unfold loadCheckpoint resolveSel resolveLatest
    rw [h]
    rfl
  · intro listing h
    have hres : resolveSel fs net (.byDirPath listing) = .error .noCheckpointFound := by
      simp only [resolveSel, h]
      rfl
    unfold loadCheckpoint
    rw [hres]

/-- C9 (witness): the theorem applied at an empty checkpoint directory. -/
theorem claim_C9_witness :
    loadCheckpoint ⟨0, false, 0, ⊤, 0, none, 5, none, none, 7, none⟩ [] "Net".data
        .latest none none none =
      .ok (⟨0, false, 0, ⊤, 0, none, 5, none, none, 7, none⟩, false) ∧
    loadCheckpoint ⟨0, false, 0, ⊤, 0, none, 5, none, none, 7, none⟩ [] "Net".data
        (.byDirPath []) none none none = .error .noCheckpointFound := by
  have h := claim_C9 ⟨0, false, 0, ⊤, 0, none, 5, none, none, 7, none⟩ [] "Net".data
    none none none
  exact ⟨h.1 rfl, h.2 [] rfl⟩

/-! ## Claim C6: net-type compatibility check -/

theorem applyLoadedFields_sched_some (st : TrainerState) (c : CkptRecord) (resume : Bool)
    (fields ignore : List Field) (s : SchedState) (hs : st.lrScheduler = some s) :
    ∃ st', applyLoadedFields st c resume fields ignore = .ok st' := by
  simp only [applyLoadedFields]
  by_cases hmem : Field.epoch ∈ fields
  · simp only [if_pos hmem]
    cases hni : c.netInfo <;> cases hr : resume <;>
      · simp [hni, foldl_applyField_lrScheduler, hs]
  · simp only [if_neg hmem]
    exact ⟨_, rfl⟩

/-- C6 (counterexample): a load from an explicit file path whose recorded `net_type`
(`"Net"`) differs from the current model type (`"BigNet"`) and is NOT a prefix of it does
not fail with `IncompatibleCheckpoint` — the code's `assert` accepts any Python substring
(`checkpoint_net_type in net_type`), and `"Net"` occurs inside `"BigNet"`. -/
theorem claim_C6_counterexample :
    loadCheckpoint ⟨0, false, 0, ⊤, 0, none, 1, none, none, 1, some ⟨0, 0⟩⟩
        [⟨"ckpt".data, Content.fullC
          ⟨5, "Actor".data, "Net".data, 9, none, none, 3, 4, 8, ⊤, 2⟩⟩]
        "BigNet".data (.byFilePath "ckpt".data) none none none ≠
      Except.error PyErr.incompatibleCheckpoint ∧
    ¬ ("Net".data = "BigNet".data ∨ "Net".data.isPrefixOf "BigNet".data = true) := by
  decide

/-- C6 (amended): a load from an explicit file path fails with `IncompatibleCheckpoint`
exactly when the recorded `net_type` neither equals the current model type nor occurs as a
SUBSTRING of it (Python `checkpoint_net_type in net_type`) — substring, not prefix. -/
theorem claim_C6_amended (st : TrainerState) (fs : FS) (net p : FName) (c : CkptRecord)
    (s : SchedState) (hlook : lookupFS fs p = some (Content.fullC c))
    (hsched : st.lrScheduler = some s) :
    (loadCheckpoint st fs net (.byFilePath p) none none none =
        Except.error PyErr.incompatibleCheckpoint) ↔
      ¬ (c.netType = net ∨ hasSub net c.netType = true) := by
  obtain ⟨st', hap⟩ := applyLoadedFields_sched_some st c false (Option.getD none recKeys)
    ((Option.getD none [Field.settings]) ++ ignoreAlways ++ Option.getD none []) s hsched
  simp only [loadCheckpoint, resolveSel, hlook]
  by_cases hc : ((c.netType == net) || hasSub net c.netType) = true
  · rw [if_pos hc, hap]
    constructor
    · intro h
      simp at h
    · intro hn
      exact absurd (by simpa [Bool.or_eq_true, beq_iff_eq] using hc) hn
  · rw [if_neg hc]
    constructor
    · intro _ hor
      exact hc (by simpa [Bool.or_eq_true, beq_iff_eq] using hor)
    · intro _
      rfl

/-- C6 (witness): the amended theorem applied at a record whose net type is neither equal
to nor a substring of the current model type. -/
theorem claim_C6_witness :
    loadCheckpoint ⟨0, false, 0, ⊤, 0, none, 1, none, none, 1, some ⟨0, 0⟩⟩
        [⟨"p".data, Content.fullC
          ⟨5, "Actor".data, "Other".data, 9, none, none, 3, 4, 8, ⊤, 2⟩⟩]
        "BigNet".data (.byFilePath "p".data) none none none =
      Except.error PyErr.incompatibleCheckpoint := by
  have h := claim_C6_amended ⟨0, false, 0, ⊤, 0, none, 1, none, none, 1, some ⟨0, 0⟩⟩
    [⟨"p".data, Content.fullC ⟨5, "Actor".data, "Other".data, 9, none, none, 3, 4, 8, ⊤, 2⟩⟩]
    "BigNet".data "p".data ⟨5, "Actor".data, "Other".data, 9, none, none, 3, 4, 8, ⊤, 2⟩
    ⟨0, 0⟩ rfl rfl
  exact h.2 (by decide)

/-! ## Claim C7: save/load round-trip -/

theorem lookupFS_setFile_self (fs : FS) (n : FName) (c : Content) :
    lookupFS (setFile fs n c) n = some c := by
  unfold lookupFS setFile removeFile
  rw [List.find?_append]
  have hnone : (fs.filter (fun en => !(en.name == n))).find? (fun en => en.name == n) =
      none := by
    rw [List.find?_eq_none]
    intro x hx
    have := List.of_mem_filter hx
    simp at this
    simp [this]
  rw [hnone]
  simp

theorem lookup_saveCheckpointFS_numbered (fs : FS) (net : FName) (ep : Nat)
    (r : CkptRecord) :
    lookupFS (saveCheckpointFS fs net none ep r) (numberedName net ep) =
      some (Content.fullC r) := by
  unfold saveCheckpointFS
  simp only [renameFile, lookupFS_setFile_self]

theorem fold_six (st₂ : TrainerState) (c : CkptRecord) :
    let st₁ := [Field.epoch, Field.stateDict, Field.optimizer, Field.stats, Field.bestVal,
      Field.epochOfBestVal].foldl (applyField c) st₂
    st₁.epoch = c.epoch ∧ st₁.stats = c.stats ∧ st₁.bestVal = c.bestVal ∧
      st₁.epochOfBestVal = c.epochOfBestVal ∧ st₁.lrScheduler = st₂.lrScheduler := by
  by_cases hopt : c.optimizer ≠ 0 <;> simp [List.foldl, applyField, hopt]

theorem applyLoadedFields_proj (st₂ : TrainerState) (c : CkptRecord) (st' : TrainerState)
    (fields ignore : List Field)
    (hfil : fields.filter (fun k => !(ignore.contains k)) =
      [Field.epoch, Field.stateDict, Field.optimizer, Field.stats, Field.bestVal,
       Field.epochOfBestVal])
    (hmem : Field.epoch ∈ fields)
    (hap : applyLoadedFields st₂ c true fields ignore = .ok st') :
    st'.epoch = c.epoch ∧ st'.stats = c.stats ∧ st'.bestVal = c.bestVal ∧
      st'.epochOfBestVal = c.epochOfBestVal := by
  obtain ⟨he, hs, hb, heb, hl⟩ := fold_six st₂ c
  simp only [applyLoadedFields, hfil, if_pos hmem, if_true] at hap
  cases hni : c.netInfo <;> rw [hni] at hap <;> simp only [] at hap <;>
    cases hsc : st₂.lrScheduler <;> rw [hsc] at hl
  · rw [hl] at hap
    simp at hap
  · rw [hl] at hap
    simp only [Except.ok.injEq] at hap
    rw [← hap]
    exact ⟨he, hs, hb, heb⟩
  · rw [hl] at hap
    simp at hap
  · rw [hl] at hap
    simp only [Except.ok.injEq] at hap
    rw [← hap]
    exact ⟨he, hs, hb, heb⟩

/-- C7: saving a checkpoint and then loading it in resume mode (here: by its epoch number,
with no intervening writes) reproduces an identical `epoch`, `stats`, `best_val` and
`epoch_of_best_val` in the loaded trainer state. -/
theorem claim_C7 (st st₂ : TrainerState) (fs : FS) (net actorT : FName)
    (s₁ s₂ : SchedState) (h₁ : st.lrScheduler = some s₁) (h₂ : st₂.lrScheduler = some s₂) :
    ∃ (fs' : FS) (st' : TrainerState),
      saveCheckpoint st fs net actorT none = .ok fs' ∧
      loadCheckpoint st₂ fs' net (.byEpoch st.epoch) none none none = .ok (st', true) ∧
      st'.epoch = st.epoch ∧ st'.stats = st.stats ∧ st'.bestVal = st.bestVal ∧
      st'.epochOfBestVal = st.epochOfBestVal := by
  have hsave : saveCheckpoint st fs net actorT none =
      .ok (saveCheckpointFS fs net none st.epoch
        ⟨st.epoch, actorT, net, st.netWeights, st.netInfo, st.netConstructor, st.optState,
         s₁.stateBlob, st.stats, st.bestVal, st.epochOfBestVal⟩) := by
    simp [saveCheckpoint, buildCheckpointState, derefSched, h₁, Except.bind]
  obtain ⟨st', hap⟩ := applyLoadedFields_sched_some st₂
    ⟨st.epoch, actorT, net, st.netWeights, st.netInfo, st.netConstructor, st.optState,
     s₁.stateBlob, st.stats, st.bestVal, st.epochOfBestVal⟩ true
    (Option.getD none recKeys)
    ((Option.getD none [Field.settings]) ++ ignoreAlways ++ Option.getD none []) s₂ h₂
  have hload : loadCheckpoint st₂
      (saveCheckpointFS fs net none st.epoch
        ⟨st.epoch, actorT, net, st.netWeights, st.netInfo, st.netConstructor, st.optState,
         s₁.stateBlob, st.stats, st.bestVal, st.epochOfBestVal⟩)
      net (.byEpoch st.epoch) none none none = .ok (st', true) := by
    simp only [loadCheckpoint, resolveSel, lookup_saveCheckpointFS_numbered]
    rw [if_pos (by simp)]
    rw [hap]
  have hproj := applyLoadedFields_proj st₂ _ st' _ _ (by decide) (by decide) hap
  exact ⟨_, st', hsave, hload, hproj.1, hproj.2.1, hproj.2.2.1, hproj.2.2.2⟩

/-! ## Claim C2: atomic checkpoint save -/

theorem not_tar_suffix_tmp (xs : FName) :
    ".pth.tar".data.isSuffixOf (xs ++ ".tmp".data) = false := by
  rw [Bool.eq_false_iff]
  intro h
  have hs : ".pth.tar".data <:+ xs ++ ".tmp".data := List.isSuffixOf_iff_suffix.1 h
  have rp : (".pth.tar".data).reverse <+: (xs ++ ".tmp".data).reverse :=
    List.reverse_prefix.2 hs
  rw [List.reverse_append] at rp
  have e1 : (".pth.tar".data).reverse = 'r' :: "at.htp.".data := by rfl
  have e2 : (".tmp".data).reverse = 'p' :: "mt.".data := by rfl
  rw [e1, e2, List.cons_append] at rp
  have := (List.cons_prefix_cons.1 rp).1
  simp at this

/-- The `.tmp` file written by `save_checkpoint` never carries a final checkpoint name. -/
theorem tmp_not_tar (net : FName) (nm : Option FName) (ep : Nat) :
    ".pth.tar".data.isSuffixOf
      (match nm with | some s => namedTmp net s | none => numberedTmp net ep) = false := by
  cases nm
  · show ".pth.tar".data.isSuffixOf (net ++ "_ep".data ++ pad4 ep ++ ".tmp".data) = false
    exact not_tar_suffix_tmp _
  · show ".pth.tar".data.isSuffixOf (net ++ "_".data ++ _ ++ ".tmp".data) = false
    exact not_tar_suffix_tmp _

theorem goodFS_setFile (fs : FS) (n : FName) (c : Content) (hg : goodFS fs)
    (h : ".pth.tar".data.isSuffixOf n = false ∨ c ≠ Content.partialC) :
    goodFS (setFile fs n c) := by
  intro en hen hsuf
  rcases List.mem_append.1 hen with h1 | h2
  · exact hg en (List.mem_of_mem_filter h1) hsuf
  · have he : en = ⟨n, c⟩ := by simpa using h2
    subst he
    rcases h with h | h
    · rw [hsuf] at h
      cases h
    · exact h

theorem goodFS_rename_full (fs : FS) (src dst : FName) (r : CkptRecord) (hg : goodFS fs)
    (hl : lookupFS fs src = some (Content.fullC r)) : goodFS (renameFile fs src dst) := by
  unfold renameFile
  rw [hl]
  refine goodFS_setFile _ _ _ ?_ (Or.inr (by simp))
  intro en hen hsuf
  exact hg en (List.mem_of_mem_filter hen) hsuf

theorem mem_of_getLastQ : ∀ {l : List FName} {a : FName}, l.getLast? = some a → a ∈ l
  | [], _, h => by simp at h
  | [x], a, h => by
    simp [List.getLast?] at h
    simp [h]
  | x :: y :: ys, a, h => by
    rw [List.getLast?_cons_cons] at h
    exact List.mem_cons_of_mem _ (mem_of_getLastQ h)

/-- Any checkpoint the `Latest` resolver can discover in a `goodFS` store is fully
written. -/
theorem resolveLatest_full (fs : FS) (net p : FName) (hg : goodFS fs)
    (h : resolveLatest fs net = some p) :
    ∃ rr, lookupFS fs p = some (Content.fullC rr) := by
  have hp : p ∈ sortedNames (matchingNames fs (globNumbered net)) := mem_of_getLastQ h
  have hp' : p ∈ matchingNames fs (globNumbered net) :=
    (List.perm_insertionSort _ _).subset hp
  have hex : ∃ en ∈ fs, en.name == p := by
    simp only [matchingNames, List.mem_map] at hp'
    obtain ⟨en, hen, hname⟩ := hp'
    exact ⟨en, List.mem_of_mem_filter hen, by simp [hname]⟩
  have htar : ".pth.tar".data.isSuffixOf p = true := by
    simp only [matchingNames, List.mem_map] at hp'
    obtain ⟨en, hen, hname⟩ := hp'
    have hglob := (List.mem_filter.1 hen).2
    rw [hname] at hglob
    simp only [globNumbered, Bool.and_eq_true] at hglob
    exact hglob.1.2
  have hsome : (fs.find? (fun en => en.name == p)).isSome := by
    rw [List.find?_isSome]
    exact hex
  obtain ⟨en, hfind⟩ := Option.isSome_iff_exists.1 hsome
  have hen : en ∈ fs := List.mem_of_find?_eq_some hfind
  have hnm : en.name = p := by simpa using List.find?_some hfind
  have hnp : en.content ≠ Content.partialC := hg en hen (hnm ▸ htar)
  cases hc : en.content with
  | partialC => exact absurd hc hnp
  | fullC rr =>
    refine ⟨rr, ?_⟩
    unfold lookupFS
    rw [hfind]
    simp [hc]

/-- Final-name lookup after a completed save, for both the named and the numbered form. -/
theorem lookup_saveCheckpointFS (fs : FS) (net : FName) (nm : Option FName) (ep : Nat)
    (r : CkptRecord) :
    lookupFS (saveCheckpointFS fs net nm ep r)
      (match nm with | some s => namedName net s | none => numberedName net ep) =
      some (Content.fullC r) := by
  cases nm <;>
    · unfold saveCheckpointFS
      simp only [renameFile, lookupFS_setFile_self]

/-- C2: every save first serializes to a `.tmp` file inside the project directory and then
renames it onto the final name (`{net_type}_{name}.pth.tar` when named,
`{net_type}_ep{epoch:04d}.pth.tar` otherwise).  In every directory state observable during
the save — including a crash between the partial `.tmp` write and the rename — no file
under a final checkpoint name has partial content, every checkpoint the `Latest` resolver
can discover is fully written, and after the rename the final name holds exactly the saved
record. -/
theorem claim_C2 (fs : FS) (net : FName) (nm : Option FName) (ep : Nat) (r : CkptRecord)
    (hg : goodFS fs) :
    (∀ fs' ∈ saveSteps fs net nm ep r, goodFS fs' ∧
      (∀ p, resolveLatest fs' net = some p →
        ∃ rr, lookupFS fs' p = some (Content.fullC rr))) ∧
    lookupFS (saveCheckpointFS fs net nm ep r)
      (match nm with | some s => namedName net s | none => numberedName net ep) =
      some (Content.fullC r) := by
  refine ⟨?_, lookup_saveCheckpointFS fs net nm ep r⟩
  intro fs' hmem
  have hgood : goodFS fs' := by
    simp only [saveSteps, List.mem_cons, List.not_mem_nil, or_false] at hmem
    rcases hmem with h | h | h | h
    · rw [h]
      exact hg
    · rw [h]
      exact goodFS_setFile _ _ _ hg (Or.inl (tmp_not_tar net nm ep))
    · rw [h]
      exact goodFS_setFile _ _ _ hg (Or.inl (tmp_not_tar net nm ep))
    · rw [h]
      unfold saveCheckpointFS
      exact goodFS_rename_full _ _ _ r
        (goodFS_setFile _ _ _ hg (Or.inl (tmp_not_tar net nm ep)))
        (lookupFS_setFile_self _ _ _)
  exact ⟨hgood, fun p hp => resolveLatest_full fs' net p hgood hp⟩

/-- C2 (witness): the theorem applied at an empty store: the completed save is readable
under its final numbered name. -/
theorem claim_C2_witness :
    lookupFS (saveCheckpointFS [] "Net".data none 3
        ⟨3, "Actor".data, "Net".data, 9, none, none, 4, 5, 8, ⊤, 1⟩)
      (numberedName "Net".data 3) =
      some (Content.fullC ⟨3, "Actor".data, "Net".data, 9, none, none, 4, 5, 8, ⊤, 1⟩) := by
  exact (claim_C2 [] "Net".data none 3
    ⟨3, "Actor".data, "Net".data, 9, none, none, 4, 5, 8, ⊤, 1⟩
    (by intro en h hs; cases h)).2

/-! ## Sorted-listing infrastructure for Latest resolution and retention pruning -/

theorem sortedNames_sorted (l : List FName) : List.Sorted sLe (sortedNames l) :=
  List.sorted_insertionSort sLe l

theorem sortedNames_perm (l : List FName) : (sortedNames l).Perm l :=
  List.perm_insertionSort sLe l

theorem contains_iff_memF (l : List FName) (a : FName) : l.contains a = true ↔ a ∈ l := by
  simp

theorem strLt_of_sLe_ne {a b : FName} (h : sLe a b) (hne : a ≠ b) : strLt a b = true := by
  cases hab : strLt a b
  · exact absurd (strLt_eq_of_not_lt hab h) hne
  · rfl

theorem pairwise_strLt_of_sorted_nodup {l : List FName} (hs : List.Sorted sLe l)
    (hn : l.Nodup) : l.Pairwise (fun a b => strLt a b = true) :=
  (List.Pairwise.and hs hn).imp fun h => strLt_of_sLe_ne h.1 h.2

theorem countP_strLt_self_eq_zero {T : List FName} {a : FName}
    (ha : ∀ b ∈ T, strLt a b = true) : T.countP (fun y => strLt y a) = 0 := by
  rw [List.countP_eq_zero]
  intro y hy
  simp [strLt_asymm (ha y hy)]

theorem mem_take_sorted_strict : ∀ {S : List FName}
    (_ : S.Pairwise (fun a b => strLt a b = true)) (x : FName) (m : Nat),
    x ∈ S.take m ↔ x ∈ S ∧ S.countP (fun y => strLt y x) < m
  | [], _, x, m => by simp
  | a :: T, hp, x, m => by
    have ha : ∀ b ∈ T, strLt a b = true := (List.pairwise_cons.1 hp).1
    have hT : T.Pairwise (fun a b => strLt a b = true) := (List.pairwise_cons.1 hp).2
    cases m with
    | zero => simp
    | succ m =>
      rw [List.take_succ_cons]
      by_cases hxa : x = a
      · subst hxa
        simp [List.countP_cons, strLt_irrefl, countP_strLt_self_eq_zero ha]
      · have hiff := mem_take_sorted_strict hT x m
        constructor
        · intro hx
          rcases List.mem_cons.1 hx with h | h
          · exact absurd h hxa
          · obtain ⟨hxT, hcnt⟩ := hiff.1 h
            have hax : strLt a x = true := ha x hxT
            refine ⟨List.mem_cons_of_mem _ hxT, ?_⟩
            rw [List.countP_cons]
            simp [hax]
            omega
        · rintro ⟨hx, hcnt⟩
          rcases List.mem_cons.1 hx with h | hxT
          · exact absurd h hxa
          · have hax : strLt a x = true := ha x hxT
            rw [List.countP_cons] at hcnt
            simp [hax] at hcnt
            exact List.mem_cons_of_mem _ (hiff.2 ⟨hxT, by omega⟩)

theorem sorted_getLast?_max : ∀ {S : List FName}, List.Sorted sLe S →
    ∀ {x : FName}, S.getLast? = some x → ∀ y ∈ S, sLe y x
  | [], _, x, h => by simp at h
  | [a], _, x, h => by
    simp [List.getLast?] at h
    subst h
    intro y hy
    simp at hy
    subst hy
    exact strLt_irrefl y
  | a :: b :: t, hs, x, h => by
    rw [List.getLast?_cons_cons] at h
    intro y hy
    rcases List.mem_cons.1 hy with rfl | hy'
    · have hx_mem : x ∈ b :: t := mem_of_getLastQ h
      exact (List.sorted_cons.1 hs).1 x hx_mem
    · exact sorted_getLast?_max (List.sorted_cons.1 hs).2 h y hy'

theorem countP_trichotomy (l : List Nat) (e : Nat) :
    l.countP (fun x => decide (x < e)) + l.countP (fun x => decide (e < x)) +
      l.countP (fun x => decide (x = e)) = l.length := by
  induction l with
  | nil => rfl
  | cons a t ih =>
    simp only [List.countP_cons, List.length_cons, decide_eq_true_eq]
    rcases Nat.lt_trichotomy a e with h | h | h
    · have d1 : a < e := h
      have d2 : ¬ e < a := by omega
      have d3 : ¬ a = e := by omega
      simp only [d1, d2, d3, if_true, if_false, if_pos, if_neg]
      omega
    · subst h
      simp only [lt_irrefl, if_true, if_false]
      simp
      omega
    · have d1 : ¬ a < e := by omega
      have d2 : e < a := h
      have d3 : ¬ a = e := by omega
      simp only [d1, d2, d3]
      simp
      omega

theorem countP_eq_self_one {l : List Nat} {e : Nat} (hn : l.Nodup) (he : e ∈ l) :
    l.countP (fun x => decide (x = e)) = 1 := by
  have h := List.count_eq_one_of_mem hn he
  rw [← h]
  unfold List.count
  exact List.countP_congr fun a _ => by simp

/-! ## Claim C8: Latest selects the highest epoch -/

/-- C8 (counterexample): with numbered checkpoints at epochs 9999 and 10000 in the store,
`Latest` resolution (`sorted(glob(...))[-1]`) selects epoch 9999, not the highest epoch
10000: `'{:04d}'` pads only to 4 digits, and `"…_ep10000.pth.tar"` sorts lexicographically
BEFORE `"…_ep9999.pth.tar"`. -/
theorem claim_C8_counterexample :
    resolveLatest
      [⟨numberedName "Net".data 9999,
        Content.fullC ⟨9999, "A".data, "Net".data, 0, none, none, 0, 0, 0, ⊤, 0⟩⟩,
       ⟨numberedName "Net".data 10000,
        Content.fullC ⟨10000, "A".data, "Net".data, 0, none, none, 0, 0, 0, ⊤, 0⟩⟩]
      "Net".data = some (numberedName "Net".data 9999) ∧ (9999 : Nat) < 10000 := by
  constructor
  · decide
  · decide

/-- C8 (amended): whenever the numbered checkpoints for the current model type are exactly
those of a set of distinct epochs that all fit the 4-digit zero-padded format (epoch
< 10000), `Latest` resolution selects the checkpoint with the highest epoch among them. -/
theorem claim_C8_amended (fs : FS) (net : FName) (eps : List Nat) (M : Nat)
    (hperm : (matchingNames fs (globNumbered net)).Perm (eps.map (numberedName net)))
    (hlt : ∀ e ∈ eps, e < 10000)
    (hM : M ∈ eps) (hmax : ∀ e ∈ eps, e ≤ M) :
    resolveLatest fs net = some (numberedName net M) := by
  have hLperm : (sortedNames (matchingNames fs (globNumbered net))).Perm
      (eps.map (numberedName net)) := (sortedNames_perm _).trans hperm
  have hmemM : numberedName net M ∈ sortedNames (matchingNames fs (globNumbered net)) :=
    hLperm.mem_iff.2 (List.mem_map_of_mem _ hM)
  have hne : sortedNames (matchingNames fs (globNumbered net)) ≠ [] := by
    intro h
    rw [h] at hmemM
    cases hmemM
  obtain ⟨x, hx⟩ : ∃ x, (sortedNames (matchingNames fs (globNumbered net))).getLast? =
      some x := by
    cases hl : (sortedNames (matchingNames fs (globNumbered net))).getLast? with
    | none => exact absurd (List.getLast?_eq_none_iff.mp hl) hne
    | some x => exact ⟨x, rfl⟩
  have hxmem : x ∈ sortedNames (matchingNames fs (globNumbered net)) := mem_of_getLastQ hx
  obtain ⟨e', he', hx_eq⟩ : ∃ e' ∈ eps, numberedName net e' = x := by
    simpa using List.mem_map.1 (hLperm.mem_iff.1 hxmem)
  have hle : sLe (numberedName net M) x :=
    sorted_getLast?_max (sortedNames_sorted _) hx _ hmemM
  rw [← hx_eq] at hle
  unfold sLe at hle
  rw [strLt_numberedName (hlt e' he') (hlt M hM)] at hle
  have h1 : ¬ e' < M := by simpa using hle
  have h2 : e' ≤ M := hmax e' he'
  have hEq : e' = M := by omega
  show (sortedNames (matchingNames fs (globNumbered net))).getLast? =
    some (numberedName net M)
  rw [hx, ← hx_eq, hEq]

/-- C8 (witness): the amended theorem applied at a concrete store with epochs 3 and 12. -/
theorem claim_C8_witness :
    resolveLatest
      [⟨numberedName "Net".data 3,
        Content.fullC ⟨3, "A".data, "Net".data, 0, none, none, 0, 0, 0, ⊤, 0⟩⟩,
       ⟨numberedName "Net".data 12,
        Content.fullC ⟨12, "A".data, "Net".data, 0, none, none, 0, 0, 0, ⊤, 0⟩⟩]
      "Net".data = some (numberedName "Net".data 12) := by
  exact claim_C8_amended
    [⟨numberedName "Net".data 3,
      Content.fullC ⟨3, "A".data, "Net".data, 0, none, none, 0, 0, 0, ⊤, 0⟩⟩,
     ⟨numberedName "Net".data 12,
      Content.fullC ⟨12, "A".data, "Net".data, 0, none, none, 0, 0, 0, ⊤, 0⟩⟩]
    "Net".data [3, 12] 12 (by decide) (by decide) (by decide) (by decide)

/-! ## Claim C3: retention pruning -/

/-- C3 (counterexample): with numbered checkpoints at epochs 9999 and 10000 and
`keep_last_checkpoints = 1`, pruning deletes epoch 10000 (the HIGHEST) and keeps 9999:
`sorted(...)` is lexicographic and `"…_ep10000.pth.tar" < "…_ep9999.pth.tar"` as strings,
so the claim that exactly the `k` highest-epoch checkpoints remain fails. -/
theorem claim_C3_counterexample :
    deleteOldCheckpoints
      [⟨numberedName "Net".data 9999,
        Content.fullC ⟨9999, "A".data, "Net".data, 0, none, none, 0, 0, 0, ⊤, 0⟩⟩,
       ⟨numberedName "Net".data 10000,
        Content.fullC ⟨10000, "A".data, "Net".data, 0, none, none, 0, 0, 0, ⊤, 0⟩⟩]
      "Net".data 1 =
      [⟨numberedName "Net".data 9999,
        Content.fullC ⟨9999, "A".data, "Net".data, 0, none, none, 0, 0, 0, ⊤, 0⟩⟩] ∧
    (9999 : Nat) < 10000 := by
  constructor
  · decide
  · decide

/-- C3 (amended): whenever the numbered checkpoints for the current model type are exactly
those of a set of distinct epochs that all fit the 4-digit zero-padded format
(epoch < 10000) and `keep_last_checkpoints = k ≥ 1`, pruning leaves a numbered checkpoint
in the directory exactly when its epoch is among the `k` highest (fewer than `k` epochs
exceed it); files not matching the numbered glob — in particular any "best" checkpoint —
are never deleted; and pruning is a no-op when fewer than `k` numbered checkpoints
exist. -/
theorem claim_C3_amended (fs : FS) (net : FName) (eps : List Nat) (k : Nat)
    (hperm : (matchingNames fs (globNumbered net)).Perm (eps.map (numberedName net)))
    (hnd : eps.Nodup) (hlt : ∀ e ∈ eps, e < 10000) (hk : 1 ≤ k) :
    (∀ e ∈ eps,
      (numberedName net e ∈ (deleteOldCheckpoints fs net k).map (·.name) ↔
        eps.countP (fun x => decide (e < x)) < k)) ∧
    (∀ en ∈ fs, globNumbered net en.name = false → en ∈ deleteOldCheckpoints fs net k) ∧
    (eps.length < k → deleteOldCheckpoints fs net k = fs) := by
  have hS_perm : (sortedNames (matchingNames fs (globNumbered net))).Perm
      (eps.map (numberedName net)) := (sortedNames_perm _).trans hperm
  have hmap_nodup : (eps.map (numberedName net)).Nodup :=
    List.Nodup.map_on
      (fun x hx y hy hxy => numberedName_inj (hlt x hx) (hlt y hy) hxy) hnd
  have hS_nodup : (sortedNames (matchingNames fs (globNumbered net))).Nodup :=
    hS_perm.nodup_iff.2 hmap_nodup
  have hpair : (sortedNames (matchingNames fs (globNumbered net))).Pairwise
      (fun a b => strLt a b = true) :=
    pairwise_strLt_of_sorted_nodup (sortedNames_sorted _) hS_nodup
  have hss : sortedNames (sortedNames (matchingNames fs (globNumbered net))) =
      sortedNames (matchingNames fs (globNumbered net)) :=
    List.Sorted.insertionSort_eq (sortedNames_sorted _)
  have hremove_eq : checkpointsToRemove fs net k =
      (sortedNames (matchingNames fs (globNumbered net))).take
        ((sortedNames (matchingNames fs (globNumbered net))).length - k) := by
    unfold checkpointsToRemove pySliceToNeg
    rw [hss, if_neg (by omega)]
  have hlen : (sortedNames (matchingNames fs (globNumbered net))).length = eps.length := by
    rw [hS_perm.length_eq, List.length_map]
  have hremove_sub : ∀ x ∈ checkpointsToRemove fs net k,
      x ∈ matchingNames fs (globNumbered net) := by
    intro x hx
    rw [hremove_eq] at hx
    exact (sortedNames_perm _).subset (List.take_subset _ _ hx)
  have hglob_of_matched : ∀ x ∈ matchingNames fs (globNumbered net),
      globNumbered net x = true := by
    intro x hx
    simp only [matchingNames, List.mem_map] at hx
    obtain ⟨en, hen, hname⟩ := hx
    exact hname ▸ (List.mem_filter.1 hen).2
  refine ⟨?_, ?_, ?_⟩
  · intro e he
    have hmatched : numberedName net e ∈ matchingNames fs (globNumbered net) :=
      hperm.mem_iff.2 (List.mem_map_of_mem _ he)
    have hSmem : numberedName net e ∈ sortedNames (matchingNames fs (globNumbered net)) :=
      hS_perm.mem_iff.2 (List.mem_map_of_mem _ he)
    obtain ⟨en₀, hen₀, hname₀⟩ :
        ∃ en ∈ fs.filter (fun en => globNumbered net en.name),
          en.name = numberedName net e := by
      simpa [matchingNames] using hmatched
    have hcnt : (sortedNames (matchingNames fs (globNumbered net))).countP
        (fun y => strLt y (numberedName net e)) =
        eps.countP (fun x => decide (x < e)) := by
      rw [hS_perm.countP_eq, List.countP_map]
      exact List.countP_congr fun x hx => by
        simp [Function.comp, strLt_numberedName (hlt x hx) (hlt e he)]
    have hrm : numberedName net e ∈ checkpointsToRemove fs net k ↔
        eps.countP (fun x => decide (x < e)) < eps.length - k := by
      rw [hremove_eq, mem_take_sorted_strict hpair, hcnt, hlen]
      simp [hSmem]
    have htri := countP_trichotomy eps e
    have hone := countP_eq_self_one hnd he
    constructor
    · intro hmem'
      obtain ⟨en, hen, hname⟩ := List.mem_map.1 hmem'
      have hpred := (List.mem_filter.1 hen).2
      rw [hname] at hpred
      have hnotrm : numberedName net e ∉ checkpointsToRemove fs net k := by
        intro hc
        rw [Bool.not_eq_true'] at hpred
        rw [← contains_iff_memF] at hc
        rw [hc] at hpred
        cases hpred
      rw [hrm] at hnotrm
      omega
    · intro hgt
      have hnotrm : numberedName net e ∉ checkpointsToRemove fs net k := by
        rw [hrm]
        omega
      refine List.mem_map.2 ⟨en₀, ?_, hname₀⟩
      refine List.mem_filter.2 ⟨List.mem_of_mem_filter hen₀, ?_⟩
      rw [Bool.not_eq_true']
      rw [← Bool.not_eq_true, contains_iff_memF]
      rw [hname₀]
      exact hnotrm
  · intro en hen hglob
    refine List.mem_filter.2 ⟨hen, ?_⟩
    rw [Bool.not_eq_true', ← Bool.not_eq_true, contains_iff_memF]
    intro hc
    have := hglob_of_matched _ (hremove_sub _ hc)
    rw [this] at hglob
    cases hglob
  · intro hsmall
    have hzero : checkpointsToRemove fs net k = [] := by
      rw [hremove_eq, hlen]
      have : eps.length - k = 0 := by omega
      rw [this, List.take_zero]
    unfold deleteOldCheckpoints
    rw [hzero]
    exact List.filter_eq_self.2 fun a _ => rfl

/-- C3 (witness): the amended theorem applied at a concrete store with epochs 1, 2, 3 and
`keep_last_checkpoints = 2`: epoch 3 survives, epoch 1 is deleted. -/
theorem claim_C3_witness :
    numberedName "Net".data 3 ∈
      (deleteOldCheckpoints
        [⟨numberedName "Net".data 1,
          Content.fullC ⟨1, "A".data, "Net".data, 0, none, none, 0, 0, 0, ⊤, 0⟩⟩,
         ⟨numberedName "Net".data 2,
          Content.fullC ⟨2, "A".data, "Net".data, 0, none, none, 0, 0, 0, ⊤, 0⟩⟩,
         ⟨numberedName "Net".data 3,
          Content.fullC ⟨3, "A".data, "Net".data, 0, none, none, 0, 0, 0, ⊤, 0⟩⟩]
        "Net".data 2).map (·.name) ∧
    numberedName "Net".data 1 ∉
      (deleteOldCheckpoints
        [⟨numberedName "Net".data 1,
          Content.fullC ⟨1, "A".data, "Net".data, 0, none, none, 0, 0, 0, ⊤, 0⟩⟩,
         ⟨numberedName "Net".data 2,
          Content.fullC ⟨2, "A".data, "Net".data, 0, none, none, 0, 0, 0, ⊤, 0⟩⟩,
         ⟨numberedName "Net".data 3,
          Content.fullC ⟨3, "A".data, "Net".data, 0, none, none, 0, 0, 0, ⊤, 0⟩⟩]
        "Net".data 2).map (·.name) := by
  have h := claim_C3_amended
    [⟨numberedName "Net".data 1,
      Content.fullC ⟨1, "A".data, "Net".data, 0, none, none, 0, 0, 0, ⊤, 0⟩⟩,
     ⟨numberedName "Net".data 2,
      Content.fullC ⟨2, "A".data, "Net".data, 0, none, none, 0, 0, 0, ⊤, 0⟩⟩,
     ⟨numberedName "Net".data 3,
      Content.fullC ⟨3, "A".data, "Net".data, 0, none, none, 0, 0, 0, ⊤, 0⟩⟩]
    "Net".data [1, 2, 3] 2 (by decide) (by decide) (by decide) (by decide)
  constructor
  · exact (h.1 3 (by decide)).2 (by decide)
  · intro hc
    exact absurd ((h.1 1 (by decide)).1 hc) (by decide)

/-! ## Claim C5: best_val monotonicity and epoch_of_best_val invariant -/

theorem runVal_fst (l : List (Option ℚ)) :
    ∀ (bv : WithTop ℚ) (eb e : Nat), (runVal (bv, eb) e l).1 = bvFold bv l := by
  induction l with
  | nil => intro bv eb e; rfl
  | cons o rest ih =>
    intro bv eb e
    cases o with
    | none => simpa [runVal, bvFold, List.foldl_cons, bvStep] using ih bv eb (e + 1)
    | some v =>
      by_cases h : (v : WithTop ℚ) < bv <;>
        simp [runVal, bvFold, List.foldl_cons, bvStep, h, ih]

theorem bvStep_le (bv : WithTop ℚ) (o : Option ℚ) : bvStep bv o ≤ bv := by
  cases o with
  | none => exact le_refl bv
  | some v =>
    show (if (v : WithTop ℚ) < bv then (v : WithTop ℚ) else bv) ≤ bv
    split
    · exact le_of_lt (by assumption)
    · exact le_refl bv

theorem bvFold_le (bv : WithTop ℚ) (l : List (Option ℚ)) : bvFold bv l ≤ bv := by
  induction l generalizing bv with
  | nil => exact le_refl bv
  | cons o rest ih =>
    calc bvFold bv (o :: rest) = bvFold (bvStep bv o) rest := rfl
    _ ≤ bvStep bv o := ih _
    _ ≤ bv := bvStep_le bv o

theorem bestValAfter_mono (scores : List (Option ℚ)) {i j : Nat} (hij : i ≤ j) :
    bestValAfter scores j ≤ bestValAfter scores i := by
  unfold bestValAfter bvFold
  conv_lhs => rw [← List.take_append_drop i (scores.take j)]
  rw [List.foldl_append, List.take_take, min_eq_left hij]
  exact bvFold_le _ _

theorem runVal_snd (l : List (Option ℚ)) :
    ∀ (bv : WithTop ℚ) (eb e : Nat), (runVal (bv, eb) e l).2 = (decList bv e l).getLastD eb := by
  induction l with
  | nil => intro bv eb e; rfl
  | cons o rest ih =>
    intro bv eb e
    cases o with
    | none => simpa [runVal, decList] using ih bv eb (e + 1)
    | some v =>
      by_cases h : (v : WithTop ℚ) < bv
      · simp only [runVal, decList, if_pos h, List.getLastD_cons]
        exact ih _ e (e + 1)
      · simp only [runVal, decList, if_neg h]
        exact ih bv eb (e + 1)

theorem decList_eq (l : List (Option ℚ)) :
    ∀ (bv : WithTop ℚ) (e : Nat),
      decList bv e l = (List.range l.length).filterMap
        (fun kk => if bvFold bv (l.take (kk + 1)) < bvFold bv (l.take kk)
          then some (e + kk) else none) := by
  induction l with
  | nil => intro bv e; rfl
  | cons o rest ih =>
    intro bv e
    set f : Nat → Option Nat := fun kk =>
      if bvFold bv ((o :: rest).take (kk + 1)) < bvFold bv ((o :: rest).take kk)
        then some (e + kk) else none with hf
    rw [List.length_cons, List.range_succ_eq_map, List.filterMap_cons, List.filterMap_map]
    have htail : (List.range rest.length).filterMap (f ∘ Nat.succ) =
        (List.range rest.length).filterMap (fun kk =>
          if bvFold (bvStep bv o) (rest.take (kk + 1)) < bvFold (bvStep bv o) (rest.take kk)
            then some ((e + 1) + kk) else none) := by
      refine List.filterMap_congr fun kk _ => ?_
      show (if bvFold (bvStep bv o) (rest.take (kk + 1)) < bvFold (bvStep bv o) (rest.take kk)
          then some (e + (kk + 1)) else none) = _
      have h5 : e + (kk + 1) = (e + 1) + kk := by omega
      rw [h5]
    cases o with
    | none =>
      have hf0 : f 0 = none := by
        show (if bv < bv then some (e + 0) else none) = none
        rw [if_neg (lt_irrefl bv)]
      simp only [hf0, htail]
      rw [decList]
      have hb : bvStep bv none = bv := rfl
      simp only [hb]
      exact ih bv (e + 1)
    | some v =>
      by_cases h : (v : WithTop ℚ) < bv
      · have hf0 : f 0 = some (e + 0) := by
          show (if ((if (v : WithTop ℚ) < bv then (v : WithTop ℚ) else bv) < bv)
            then some (e + 0) else none) = some (e + 0)
          rw [if_pos h, if_pos h]
        simp only [hf0, htail]
        rw [decList, if_pos h]
        have hb : bvStep bv (some v) = (v : WithTop ℚ) := by
          simp [bvStep, h]
        simp only [hb]
        rw [ih]
        rfl
      · have hf0 : f 0 = none := by
          show (if ((if (v : WithTop ℚ) < bv then (v : WithTop ℚ) else bv) < bv)
            then some (e + 0) else none) = none
          rw [if_neg h, if_neg (lt_irrefl bv)]
        simp only [hf0, htail]
        rw [decList, if_neg h]
        have hb : bvStep bv (some v) = bv := by
          simp [bvStep, h]
        simp only [hb]
        exact ih bv (e + 1)

/-- C5: across every run, `best_val` starts at `float("Inf")` and is monotonically
non-increasing, and `epoch_of_best_val` (initially 0) always equals the last epoch at
which `best_val` strictly decreased (it stays 0 when no decrease ever happened).  The
run's final `best_val` matches the fold of the per-epoch updates. -/
theorem claim_C5 (scores : List (Option ℚ)) :
    (runVal (⊤, 0) 1 scores).1 = bestValAfter scores scores.length ∧
    (∀ i j : Nat, i ≤ j → bestValAfter scores j ≤ bestValAfter scores i) ∧
    (runVal (⊤, 0) 1 scores).2 = (decreaseEpochs scores).getLastD 0 := by
  refine ⟨?_, fun i j hij => bestValAfter_mono scores hij, ?_⟩
  · rw [runVal_fst, bestValAfter, List.take_length]
  · rw [runVal_snd, decList_eq]
    congr 1
    refine List.filterMap_congr fun kk _ => ?_
    have h : (1 : Nat) + kk = kk + 1 := by omega
    rw [h]
    rfl

/-- C5 (witness): the theorem applied at a concrete run — scores 5, (no validation), 3, 7
give decreases at epochs 1 and 3, so `epoch_of_best_val = 3`, and `best_val` after epoch 4
is below its value after epoch 2. -/
theorem claim_C5_witness :
    (runVal (⊤, 0) 1 [some (5 : ℚ), none, some 3, some 7]).2 = 3 ∧
    bestValAfter [some (5 : ℚ), none, some 3, some 7] 4 ≤
      bestValAfter [some (5 : ℚ), none, some 3, some 7] 2 := by
  have h := claim_C5 [some (5 : ℚ), none, some 3, some 7]
  constructor
  · rw [h.2.2]
    decide
  · exact h.2.1 2 4 (by decide)

/-- C7 (witness): the round-trip theorem applied at a concrete trainer state (epoch 7,
stats blob 3, best_val 1, epoch_of_best_val 5), loaded into a fresh trainer. -/
theorem claim_C7_witness :
    (⟨7, false, 3, ((1 : ℚ) : WithTop ℚ), 5, none, 9, none, none, 4,
        some ⟨0, 2⟩⟩ : TrainerState).lrScheduler = some ⟨0, 2⟩ ∧
    ∃ (fs' : FS) (st' : TrainerState),
      saveCheckpoint ⟨7, false, 3, ((1 : ℚ) : WithTop ℚ), 5, none, 9, none, none, 4,
          some ⟨0, 2⟩⟩ [] "Net".data "Actor".data none = .ok fs' ∧
      loadCheckpoint ⟨0, true, 0, ⊤, 0, none, 0, none, none, 0, some ⟨1, 6⟩⟩ fs'
          "Net".data (.byEpoch 7) none none none = .ok (st', true) ∧
      st'.epoch = 7 ∧ st'.stats = 3 ∧ st'.bestVal = ((1 : ℚ) : WithTop ℚ) ∧
      st'.epochOfBestVal = 5 := by
  refine ⟨rfl, ?_⟩
  exact claim_C7
    ⟨7, false, 3, ((1 : ℚ) : WithTop ℚ), 5, none, 9, none, none, 4, some ⟨0, 2⟩⟩
    ⟨0, true, 0, ⊤, 0, none, 0, none, none, 0, some ⟨1, 6⟩⟩
    [] "Net".data "Actor".data ⟨0, 2⟩ ⟨1, 6⟩ rfl rfl

end BaseTrainerModel
